import Mathlib

/-!
Verification of the fastnumbers classification-and-conversion engine.

The definitions below are a shallow embedding of the C/C++ sources:
* character predicates and the whitespace-stripping routine from
  `include/parsing.h`;
* the float scanner `string_contains_non_overflowing_float` from
  `src/cpp/implementation.cpp` (lines 572-618);
* the type-resolution layer `resolve_types`, `collect_type`,
  `float_check_impl` and `type_query_impl` from the same file.

Strings are modelled as `List Char` restricted to the scanned range: in the
C code every loop stops on the first character that fails its predicate, and
all characters beyond the trimmed range are whitespace or NUL, which fail
every predicate used, so the scan never inspects characters outside the
range we model.
-/

namespace Fastnumbers

/-! ## Character predicates (include/parsing.h, lines 20-36) -/

/-- Embedding of `is_white_space` (parsing.h:20). -/
def is_white_space (c : Char) : Bool :=
  c = ' ' || ('\t' ≤ c && c ≤ '\r')

/-- Embedding of `is_valid_digit` (parsing.h:21). -/
def is_valid_digit (c : Char) : Bool :=
  '0' ≤ c && c ≤ '9'

/-- Embedding of `is_decimal` (parsing.h:24). -/
def is_decimal (c : Char) : Bool :=
  c = '.'

/-- Embedding of `is_e_or_E` (parsing.h:26). -/
def is_e_or_E (c : Char) : Bool :=
  c = 'e' || c = 'E'

/-- Embedding of `is_n_or_N` (parsing.h:27). -/
def is_n_or_N (c : Char) : Bool :=
  c = 'n' || c = 'N'

/-- Embedding of `is_i_or_I` (parsing.h:29). -/
def is_i_or_I (c : Char) : Bool :=
  c = 'i' || c = 'I'

/-- Embedding of `is_sign` (parsing.h:33-35). -/
def is_sign (c : Char) : Bool :=
  c = '-' || c = '+'

/-- Embedding of `ascii2int` (parsing.h:14), the digit value of an ASCII digit. -/
def ascii2int (c : Char) : Nat :=
  c.toNat - '0'.toNat

/-- ASCII lower-casing of a single character, as used by the case-insensitive
matching helper. -/
def lowerAscii (c : Char) : Char :=
  if 'A' ≤ c && c ≤ 'Z' then Char.ofNat (c.toNat + 32) else c

/-- Modelled from the spec: `case_insensitive_match` is declared in
parsing.h:64-65 but its body is not under src/. The spec describes the match
as "case-insensitively equals", and every call site advances the cursor by the
length of the pattern on success, so the function is a case-insensitive
prefix match of the scanned text against a lowercase pattern. -/
def case_insensitive_match : List Char → List Char → Bool
  | _, [] => true
  | [], _ :: _ => false
  | c :: s, t :: ts => (lowerAscii c = t) && case_insensitive_match s ts

/-- Embedding of `consume_sign` (parsing.h:46): advance past one optional
leading sign character, returning the remaining characters. -/
def consume_sign (s : List Char) : List Char :=
  match s with
  | c :: cs => if is_sign c then cs else c :: cs
  | [] => []

/-- Embedding of the whitespace trimming of `strip_whitespace`
(parsing.h:54-60): drop leading whitespace, then drop trailing whitespace.
The pointer arithmetic of the C version lands `end` one past the last
non-whitespace character; the callers (outside src/) pass the length of the
character data, and on all-whitespace input this embedding returns `[]`. -/
def strip_whitespace (s : List Char) : List Char :=
  ((s.dropWhile is_white_space).reverse.dropWhile is_white_space).reverse

/-! ## The float scanner (implementation.cpp, lines 572-618) -/

/-- The constant `DBL_DIG` from float.h for IEEE-754 binary64: 15. -/
def DBL_DIG : Nat := 15

/-- Consume a maximal run of ASCII digits (the `while (is_valid_digit(str))`
loops of implementation.cpp:600,606,613), returning the count of digits
consumed and the remaining characters. -/
def scanDigits (s : List Char) : Nat × List Char :=
  ((s.takeWhile is_valid_digit).length, s.dropWhile is_valid_digit)

/-- Consume an optional decimal point followed by a maximal digit run
(implementation.cpp:604-607), returning the count of digits consumed after
the point and the remaining characters. -/
def scanDecimal (s : List Char) : Nat × List Char :=
  match s with
  | c :: cs => if is_decimal c then scanDigits cs else (0, c :: cs)
  | [] => (0, [])

/-- Consume the exponent part (implementation.cpp:609-614): when the next
character is `e`/`E` and a digit was seen before, the validity flag is reset
and becomes true again only if at least one digit follows the optional sign. -/
def scanExponent (valid : Bool) (s : List Char) : Bool × List Char :=
  match s with
  | c :: cs =>
    if is_e_or_E c && valid then
      let (n, r) := scanDigits (consume_sign cs)
      (decide (0 < n), r)
    else (valid, c :: cs)
  | [] => (valid, [])

/-- Result of the non-special (digit grammar) part of the scanner:
the validity flag, the mantissa digit count `ndigits`, and the unconsumed
remainder of the input. -/
structure GenScan where
  valid : Bool
  ndigits : Nat
  rest : List Char
deriving DecidableEq

/-- The digit-grammar part of `string_contains_non_overflowing_float`
(implementation.cpp:598-616), starting after the optional sign.
The `consume_python2_long_literal_lL` branch is identically false on
Python 3 (parsing.h:42), so the decimal and exponent sections always run. -/
def generalScan (s1 : List Char) : GenScan :=
  let (n1, r1) := scanDigits s1
  let (n2, r2) := scanDecimal r1
  let nd := n1 + n2
  let (v, r3) := scanExponent (decide (0 < nd)) r2
  { valid := v, ndigits := nd, rest := r3 }

/-- Which special token the scanner matched. -/
inductive Special
  | inf
  | nan
deriving DecidableEq

/-- Outcome of the scanner: either a special token was matched (carrying the
unconsumed remainder, which the code compares against `end`), or the digit
grammar ran. -/
inductive ScanRes
  | special (tag : Special) (rest : List Char)
  | general (g : GenScan)
deriving DecidableEq

/-- Guard of implementation.cpp:582: the first character after the sign is
`n`/`N` or `i`/`I`. -/
def startsNI (s : List Char) : Bool :=
  match s with
  | c :: _ => is_n_or_N c || is_i_or_I c
  | [] => false

/-- Embedding of the control flow of `string_contains_non_overflowing_float`
(implementation.cpp:572-618), keeping the matched branch observable. -/
def scanFloat (s : List Char) : ScanRes :=
  let s1 := consume_sign s
  if startsNI s1 then
    if case_insensitive_match s1 ['i', 'n', 'f'] then
      if case_insensitive_match (s1.drop 3) ['i', 'n', 'i', 't', 'y'] then
        .special .inf ((s1.drop 3).drop 5)
      else
        .special .inf (s1.drop 3)
    else if case_insensitive_match s1 ['n', 'a', 'n'] then
      .special .nan (s1.drop 3)
    else .general (generalScan s1)
  else .general (generalScan s1)

/-- Embedding of `string_contains_non_overflowing_float`
(implementation.cpp:572-618): a special token is accepted when it consumed
the whole range; otherwise the grammar must be valid, have fewer than
`DBL_DIG` mantissa digits, and consume the whole range. -/
def string_contains_non_overflowing_float (s : List Char) : Bool :=
  match scanFloat s with
  | .special _ rest => rest.isEmpty
  | .general g => g.valid && decide (g.ndigits < DBL_DIG) && g.rest.isEmpty

/-- The unconsumed remainder of the input after the scanner's match. -/
def scanRest (s : List Char) : List Char :=
  match scanFloat s with
  | .special _ rest => rest
  | .general g => g.rest

/-- The full pipeline on an untrimmed string: trim whitespace as the callers
do with `strip_whitespace`, then run the scanner. -/
def classifyFloatString (s : List Char) : Bool :=
  string_contains_non_overflowing_float (strip_whitespace s)

/-! ## The classification descriptor and resolution layer
(implementation.cpp, lines 61-409) -/

/-- Embedding of the `NumberFlags` bitset: one Boolean per flag of the
`NumberType` enumeration used by implementation.cpp. -/
structure NumberFlags where
  integer : Bool := false
  float : Bool := false
  intlike : Bool := false
  infinity : Bool := false
  nan : Bool := false
  fromStr : Bool := false
  fromUni : Bool := false
  fromNum : Bool := false
  invalid : Bool := false
deriving DecidableEq

/-- The `NumberType::INVALID` value returned by `collect_type` on a type
mismatch (implementation.cpp:75,77). -/
def NumberFlags.INVALID : NumberFlags :=
  { invalid := true }

/-- The slice of `UserOptions` read by `resolve_types`: the four per-origin
inf/NaN allowances and the int-like coercion switch. -/
structure UserOptions where
  allow_inf_str : Bool := true
  allow_nan_str : Bool := true
  allow_inf_num : Bool := true
  allow_nan_num : Bool := true
  allow_coerce : Bool := false
deriving DecidableEq

/-- The four Booleans produced by `resolve_types` through its out-parameters. -/
structure ResolvedTypes where
  from_str : Bool
  ok_float : Bool
  ok_int : Bool
  ok_intlike : Bool
deriving DecidableEq

/-- Embedding of `resolve_types` (implementation.cpp:290-315), with the same
intermediate Booleans as the source. -/
def resolve_types (flags : NumberFlags) (options : UserOptions) : ResolvedTypes :=
  let from_str := flags.fromStr || flags.fromUni
  let from_num := flags.fromNum
  let no_inf_str := from_str && !options.allow_inf_str
  let no_nan_str := from_str && !options.allow_nan_str
  let no_inf_num := from_num && !options.allow_inf_num
  let no_nan_num := from_num && !options.allow_nan_num
  let no_inf := no_inf_str || no_inf_num
  let no_nan := no_nan_str || no_nan_num
  let bad_inf := no_inf && flags.infinity
  let bad_nan := no_nan && flags.nan
  { from_str := from_str
    ok_float := flags.float && !(bad_inf || bad_nan)
    ok_int := flags.integer
    ok_intlike := options.allow_coerce && flags.intlike }

/-- Modelled from the spec: the binding layer (outside src/) hands the engine
one of three mutually exclusive input kinds — a character string, a single
unicode character, or a native numeric value. This stands for the outcome of
the `TextExtractor` queries used by `collect_type`. -/
inductive InputKind
  | text
  | unicodeCharacter
  | numeric
deriving DecidableEq

/-- Modelled from the spec: `TextExtractor::is_text` for the three input
kinds (the extractor itself is outside src/). -/
def InputKind.is_text : InputKind → Bool
  | .text => true
  | _ => false

/-- Modelled from the spec: `TextExtractor::is_unicode_character`. -/
def InputKind.is_unicode_character : InputKind → Bool
  | .unicodeCharacter => true
  | _ => false

/-- Modelled from the spec: `TextExtractor::is_non_text`, true exactly for
native numeric inputs. -/
def InputKind.is_non_text (k : InputKind) : Bool :=
  !k.is_text && !k.is_unicode_character

/-- The `consider` argument of `collect_type`: `Selectors::NUMBER_ONLY`,
`Selectors::STRING_ONLY`, or the null pointer meaning both. -/
inductive Consider
  | numberOnly
  | stringOnly
  | both
deriving DecidableEq

/-- Embedding of `collect_type` (implementation.cpp:61-88). The evaluator
(`Evaluator<...>::number_type()`, outside src/) is abstracted as a function
from the input kind to the flags it reports. -/
def collect_type (kind : InputKind) (consider : Consider)
    (evaluator : InputKind → NumberFlags) : NumberFlags :=
  let num_only := consider = Consider.numberOnly
  let str_only := consider = Consider.stringOnly
  if num_only && (kind.is_text || kind.is_unicode_character) then
    NumberFlags.INVALID
  else if str_only && kind.is_non_text then
    NumberFlags.INVALID
  else
    evaluator kind

/-- The target-type argument of the check and conversion entry points. -/
inductive UserType
  | REAL
  | FLOAT
  | INT
  | INTLIKE
deriving DecidableEq

/-- Embedding of `float_check_impl` (implementation.cpp:317-346): collect the
flags, resolve them, then keep the integer verdict only for `REAL`, or for
string input with strict mode off. -/
def float_check_impl (kind : InputKind) (evaluator : InputKind → NumberFlags)
    (consider : Consider) (options : UserOptions) (ntype : UserType)
    (strict : Bool) : Bool :=
  let flags := collect_type kind consider evaluator
  let r := resolve_types flags options
  let ok_int :=
    if ntype = UserType.REAL then r.ok_int else r.from_str && !strict && r.ok_int
  r.ok_float || ok_int

/-- The Python type object returned by `type_query_impl`: `PyLong_Type`,
`PyFloat_Type`, or the input's own type. -/
inductive FoundType
  | pyLong
  | pyFloat
  | inputOwn
deriving DecidableEq

/-- The found-type selection of `type_query_impl` (implementation.cpp:397-399):
integer verdicts win over the float verdict, and the input's own type is used
only when neither holds. -/
def found_type (r : ResolvedTypes) : FoundType :=
  if r.ok_int || r.ok_intlike then FoundType.pyLong
  else if r.ok_float then FoundType.pyFloat
  else FoundType.inputOwn

/-- Embedding of `type_query_impl` (implementation.cpp:375-409). The
`allowed_types` sequence is abstracted as an optional membership test
(`PySequence_Contains`), and `collect_type` is called with the null selector
as in the source (line 390). -/
def type_query_impl (kind : InputKind) (evaluator : InputKind → NumberFlags)
    (options : UserOptions) (allowed : Option (FoundType → Bool)) :
    Option FoundType :=
  let flags := collect_type kind Consider.both evaluator
  let r := resolve_types flags options
  let found := found_type r
  match allowed with
  | some member => if member found then some found else none
  | none => some found

/-! ## Spec-side definitions

These definitions follow the words of the specification rather than the
source; they exist to be compared against the source embedding. -/

/-- Value of a run of ASCII digits read in base 10. -/
def digitsToNat (l : List Char) : Nat :=
  l.foldl (fun a c => 10 * a + ascii2int c) 0

/-- Split an optional single leading sign off a string, remembering whether
it was negative. -/
def signSplit (s : List Char) : Bool × List Char :=
  match s with
  | c :: cs => if c = '-' then (true, cs) else if c = '+' then (false, cs) else (false, c :: cs)
  | [] => (false, [])

/-- The value denoted by a base-10 float literal, kept symbolic: a sign, a
mantissa read as an integer, and a power of ten. -/
structure SpecFloatVal where
  neg : Bool
  mantissa : Nat
  exp10 : Int
deriving DecidableEq

/-- The rational number denoted by a `SpecFloatVal`. -/
def SpecFloatVal.toRat (v : SpecFloatVal) : ℚ :=
  (if v.neg then -1 else 1) * (v.mantissa : ℚ) * 10 ^ v.exp10

/-- Optional decimal point followed by zero or more digits (spec §4.1 step 4):
returns the digits after the point and the rest of the input. -/
def specDecSplit (r1 : List Char) : List Char × List Char :=
  match r1 with
  | c :: t =>
    if c = '.' then (t.takeWhile is_valid_digit, t.dropWhile is_valid_digit)
    else ([], c :: t)
  | [] => ([], [])

/-- Modelled from the spec (§4.1 step 4): the base-10 float grammar — an
optional single leading sign, zero or more digits, optionally a decimal point
followed by zero or more digits, optionally an exponent marker `e`/`E`
followed by an optional sign and one or more digits; at least one digit must
appear before any exponent, and the whole string must be consumed. Returns
the denoted value on success, `none` on a syntactically invalid literal. -/
def specScanFloat (s : List Char) : Option SpecFloatVal :=
  let (neg, s1) := signSplit s
  let d1 := s1.takeWhile is_valid_digit
  let r1 := s1.dropWhile is_valid_digit
  let (d2, r2) := specDecSplit r1
  if d1.length + d2.length = 0 then none
  else
    match r2 with
    | [] => some ⟨neg, digitsToNat (d1 ++ d2), -(d2.length : Int)⟩
    | c :: cs =>
      if is_e_or_E c then
        let (eneg, s2) := signSplit cs
        let d3 := s2.takeWhile is_valid_digit
        let r3 := s2.dropWhile is_valid_digit
        if d3.length = 0 || !r3.isEmpty then none
        else
          let e : Int := if eneg then -(digitsToNat d3 : Int) else (digitsToNat d3 : Int)
          some ⟨neg, digitsToNat (d1 ++ d2), e - (d2.length : Int)⟩
      else none

/-- The number of mantissa digits (before and after the decimal point) of a
literal, the quantity the scanner counts in `ndigits`. -/
def mantissa_digit_count (s : List Char) : Nat :=
  let s1 := (signSplit s).2
  let d1 := s1.takeWhile is_valid_digit
  let r1 := s1.dropWhile is_valid_digit
  d1.length + ((specDecSplit r1).1).length

/-- Largest finite IEEE-754 binary64 value, as a rational. -/
def maxDouble : ℚ := (2 ^ 53 - 1) * 2 ^ 971

/-- A rational value is representable (in range) for IEEE-754 binary64. -/
def fitsDouble (v : SpecFloatVal) : Prop :=
  |v.toRat| ≤ maxDouble

/-- Modelled from the spec (§4.1 steps 2-3): after an optional single leading
sign, the remainder case-insensitively equals "inf", "infinity", or "nan". -/
def specialTokenDecl (s : List Char) : Bool :=
  let s1 := (signSplit s).2
  s1.map lowerAscii = ['i', 'n', 'f'] ||
    s1.map lowerAscii = ['i', 'n', 'f', 'i', 'n', 'i', 't', 'y'] ||
    s1.map lowerAscii = ['n', 'a', 'n']

/-! ## Helper lemmas: characters -/

theorem toNat_ofNat_of_valid {n : Nat} (h : n.isValidChar) : (Char.ofNat n).toNat = n := by
  unfold Char.ofNat
  split
  · rfl
  · contradiction

theorem char_eq_of_toNat_eq {a b : Char} (h : a.toNat = b.toNat) : a = b := by
  have h1 := Char.ofNat_toNat a
  have h2 := Char.ofNat_toNat b
  rw [← h1, ← h2, h]

theorem digit_not_ws {c : Char} (h : is_valid_digit c = true) : is_white_space c = false := by
  cases hw : is_white_space c with
  | false => rfl
  | true =>
    exfalso
    simp only [is_valid_digit, Bool.and_eq_true, decide_eq_true_eq] at h
    simp only [is_white_space, Bool.or_eq_true, Bool.and_eq_true, decide_eq_true_eq] at hw
    rcases hw with hw | ⟨_, hw2⟩
    · subst hw
      exact absurd h.1 (by decide)
    · exact absurd (le_trans h.1 hw2) (by decide)

theorem sign_not_ws {c : Char} (h : is_sign c = true) : is_white_space c = false := by
  simp only [is_sign, Bool.or_eq_true, decide_eq_true_eq] at h
  rcases h with h | h <;> subst h <;> decide

theorem decimal_not_ws {c : Char} (h : is_decimal c = true) : is_white_space c = false := by
  simp only [is_decimal, decide_eq_true_eq] at h
  subst h
  decide

theorem e_not_ws {c : Char} (h : is_e_or_E c = true) : is_white_space c = false := by
  simp only [is_e_or_E, Bool.or_eq_true, decide_eq_true_eq] at h
  rcases h with h | h <;> subst h <;> decide

theorem ws_lowerAscii {c : Char} (h : is_white_space c = true) : lowerAscii c = c := by
  unfold lowerAscii
  split
  next hg =>
    exfalso
    simp only [Bool.and_eq_true, decide_eq_true_eq] at hg
    simp only [is_white_space, Bool.or_eq_true, Bool.and_eq_true, decide_eq_true_eq] at h
    rcases h with h | ⟨_, h2⟩
    · subst h
      exact absurd hg.1 (by decide)
    · exact absurd (le_trans hg.1 h2) (by decide)
  next => rfl

theorem letter_lower_not_ws {c x : Char}
    (hl : lowerAscii c = x)
    (hx : x ∈ (['i', 'n', 'f', 't', 'y', 'a'] : List Char)) :
    is_white_space c = false := by
  cases hw : is_white_space c with
  | false => rfl
  | true =>
    exfalso
    rw [ws_lowerAscii hw] at hl
    subst hl
    simp only [List.mem_cons, List.not_mem_nil, or_false] at hx
    simp only [is_white_space, Bool.or_eq_true, Bool.and_eq_true, decide_eq_true_eq] at hw
    rcases hx with h | h | h | h | h | h <;> subst h <;> revert hw <;> decide

theorem is_i_or_I_of_lower {c : Char} (h : lowerAscii c = 'i') : is_i_or_I c = true := by
  unfold lowerAscii at h
  split at h
  next hg =>
    simp only [Bool.and_eq_true, decide_eq_true_eq] at hg
    have hz : c.toNat ≤ 90 := hg.2
    have hv : (c.toNat + 32).isValidChar := Or.inl (by omega)
    have ht := congrArg Char.toNat h
    rw [toNat_ofNat_of_valid hv] at ht
    have hi : ('i').toNat = 105 := rfl
    rw [hi] at ht
    have hI : ('I').toNat = 73 := rfl
    have : c = 'I' := char_eq_of_toNat_eq (by rw [hI]; omega)
    subst this
    decide
  next =>
    subst h
    decide

theorem is_n_or_N_of_lower {c : Char} (h : lowerAscii c = 'n') : is_n_or_N c = true := by
  unfold lowerAscii at h
  split at h
  next hg =>
    simp only [Bool.and_eq_true, decide_eq_true_eq] at hg
    have hz : c.toNat ≤ 90 := hg.2
    have hv : (c.toNat + 32).isValidChar := Or.inl (by omega)
    have ht := congrArg Char.toNat h
    rw [toNat_ofNat_of_valid hv] at ht
    have hn : ('n').toNat = 110 := rfl
    rw [hn] at ht
    have hN : ('N').toNat = 78 := rfl
    have : c = 'N' := char_eq_of_toNat_eq (by rw [hN]; omega)
    subst this
    decide
  next =>
    subst h
    decide

theorem digit_not_n_or_i {c : Char} (h : is_valid_digit c = true) :
    is_n_or_N c = false ∧ is_i_or_I c = false := by
  simp only [is_valid_digit, Bool.and_eq_true, decide_eq_true_eq] at h
  constructor
  · cases hn : is_n_or_N c with
    | false => rfl
    | true =>
      exfalso
      simp only [is_n_or_N, Bool.or_eq_true, decide_eq_true_eq] at hn
      rcases hn with hn | hn <;> subst hn <;> exact absurd h.2 (by decide)
  · cases hn : is_i_or_I c with
    | false => rfl
    | true =>
      exfalso
      simp only [is_i_or_I, Bool.or_eq_true, decide_eq_true_eq] at hn
      rcases hn with hn | hn <;> subst hn <;> exact absurd h.2 (by decide)

/-! ## Helper lemmas: case-insensitive matching -/

theorem ciMatch_take {s pat : List Char} (h : case_insensitive_match s pat = true) :
    ∀ c ∈ s.take pat.length, ∃ x ∈ pat, lowerAscii c = x := by
  induction pat generalizing s with
  | nil => simp
  | cons t ts ih =>
    cases s with
    | nil => simp [case_insensitive_match] at h
    | cons c cs =>
      simp only [case_insensitive_match, Bool.and_eq_true, decide_eq_true_eq] at h
      intro d hd
      simp only [List.length_cons, List.take_succ_cons, List.mem_cons] at hd
      rcases hd with hd | hd
      · subst hd
        exact ⟨t, List.mem_cons_self .., h.1⟩
      · obtain ⟨x, hx, hlx⟩ := ih h.2 d hd
        exact ⟨x, List.mem_cons_of_mem _ hx, hlx⟩

theorem mapLower_eq_iff {pat : List Char} :
    ∀ {s : List Char},
      s.map lowerAscii = pat ↔
        (case_insensitive_match s pat = true ∧ s.drop pat.length = []) := by
  induction pat with
  | nil =>
    intro s
    cases s with
    | nil => simp [case_insensitive_match]
    | cons c cs => simp [case_insensitive_match]
  | cons t ts ih =>
    intro s
    cases s with
    | nil => simp [case_insensitive_match]
    | cons c cs =>
      simp only [List.map_cons, List.cons.injEq, case_insensitive_match,
        Bool.and_eq_true, decide_eq_true_eq, List.length_cons, List.drop_succ_cons]
      rw [ih]
      tauto

theorem ciMatch_append {p q : List Char} :
    ∀ {s : List Char},
      case_insensitive_match s (p ++ q) =
        (case_insensitive_match s p && case_insensitive_match (s.drop p.length) q) := by
  induction p with
  | nil => simp [case_insensitive_match]
  | cons t ts ih =>
    intro s
    cases s with
    | nil => simp [case_insensitive_match]
    | cons c cs =>
      simp only [List.cons_append, case_insensitive_match, List.length_cons,
        List.drop_succ_cons, List.append_eq]
      rw [ih, Bool.and_assoc]

/-! ## Helper lemmas: lists -/

theorem takeWhile_nil_dropWhile {p : α → Bool} {l : List α}
    (h : l.takeWhile p = []) : l.dropWhile p = l := by
  cases l with
  | nil => rfl
  | cons c cs =>
    cases hp : p c with
    | false => simp [List.dropWhile_cons, hp]
    | true => simp [List.takeWhile_cons, hp] at h

theorem head_fail_takeWhile {p : α → Bool} {l : List α}
    (h : ∀ c, l.head? = some c → p c = false) : l.takeWhile p = [] := by
  cases l with
  | nil => rfl
  | cons c cs =>
    have := h c rfl
    simp [List.takeWhile_cons, this]

theorem head_fail_dropWhile {p : α → Bool} {l : List α}
    (h : ∀ c, l.head? = some c → p c = false) : l.dropWhile p = l := by
  exact takeWhile_nil_dropWhile (head_fail_takeWhile h)

theorem takeWhile_middle {p : α → Bool} {l1 l2 : List α}
    (h1 : ∀ c ∈ l1, p c = true) (h2 : ∀ c, l2.head? = some c → p c = false) :
    (l1 ++ l2).takeWhile p = l1 ∧ (l1 ++ l2).dropWhile p = l2 := by
  constructor
  · rw [List.takeWhile_append_of_pos h1, head_fail_takeWhile h2, List.append_nil]
  · rw [List.dropWhile_append_of_pos h1, head_fail_dropWhile h2]

/-! ## Helper lemmas: the sign and the special-token branch -/

theorem consume_sign_eq_signSplit (s : List Char) : consume_sign s = (signSplit s).2 := by
  cases s with
  | nil => rfl
  | cons c cs =>
    simp only [consume_sign, signSplit, is_sign, Bool.or_eq_true, decide_eq_true_eq]
    by_cases h1 : c = '-'
    · simp [h1]
    · by_cases h2 : c = '+' <;> simp [h1, h2]

theorem consume_sign_decomp (s : List Char) :
    ∃ pre, s = pre ++ consume_sign s ∧ ∀ c ∈ pre, is_sign c = true := by
  cases s with
  | nil => exact ⟨[], rfl, by simp⟩
  | cons c cs =>
    cases h : is_sign c with
    | true =>
      refine ⟨[c], ?_, ?_⟩
      · simp [consume_sign, h]
      · intro d hd
        simp only [List.mem_singleton] at hd
        subst hd
        exact h
    | false =>
      refine ⟨[], ?_, by simp⟩
      simp [consume_sign, h]

theorem consume_sign_length (s : List Char) : (consume_sign s).length ≤ s.length := by
  cases s with
  | nil => simp [consume_sign]
  | cons c cs =>
    simp only [consume_sign]
    split <;> simp

theorem startsNI_of_mapLower_i {s1 rest : List Char}
    (h : s1.map lowerAscii = 'i' :: rest) : startsNI s1 = true := by
  cases s1 with
  | nil => simp at h
  | cons c cs =>
    simp only [List.map_cons, List.cons.injEq] at h
    simp [startsNI, is_i_or_I_of_lower h.1]

theorem startsNI_of_mapLower_n {s1 rest : List Char}
    (h : s1.map lowerAscii = 'n' :: rest) : startsNI s1 = true := by
  cases s1 with
  | nil => simp at h
  | cons c cs =>
    simp only [List.map_cons, List.cons.injEq] at h
    simp [startsNI, is_n_or_N_of_lower h.1]

theorem ciMatch_nil_nonempty {t : Char} {ts : List Char} :
    case_insensitive_match [] (t :: ts) = false := rfl

theorem scanFloat_special_inf_iff (s : List Char) :
    scanFloat s = ScanRes.special Special.inf [] ↔
      ((consume_sign s).map lowerAscii = ['i', 'n', 'f'] ∨
        (consume_sign s).map lowerAscii = ['i', 'n', 'f', 'i', 'n', 'i', 't', 'y']) := by
  have happ :
      case_insensitive_match (consume_sign s) ['i', 'n', 'f', 'i', 'n', 'i', 't', 'y'] =
        (case_insensitive_match (consume_sign s) ['i', 'n', 'f'] &&
          case_insensitive_match ((consume_sign s).drop 3) ['i', 'n', 'i', 't', 'y']) := by
    have h8 : (['i', 'n', 'f', 'i', 'n', 'i', 't', 'y'] : List Char) =
        ['i', 'n', 'f'] ++ ['i', 'n', 'i', 't', 'y'] := rfl
    rw [h8, ciMatch_append]
    rfl
  simp only [scanFloat]
  cases hni : startsNI (consume_sign s) with
  | false =>
    simp only [Bool.false_eq_true, if_false, reduceIte]
    constructor
    · intro h
      simp at h
    · intro h
      exfalso
      rcases h with h | h
      · rw [startsNI_of_mapLower_i h] at hni
        exact absurd hni (by decide)
      · rw [startsNI_of_mapLower_i h] at hni
        exact absurd hni (by decide)
  | true =>
    simp only [reduceIte]
    cases h1 : case_insensitive_match (consume_sign s) ['i', 'n', 'f'] with
    | true =>
      cases h2 : case_insensitive_match ((consume_sign s).drop 3) ['i', 'n', 'i', 't', 'y'] with
      | true =>
        simp only [reduceIte, ScanRes.special.injEq, true_and]
        rw [List.drop_drop]
        constructor
        · intro h
          right
          refine mapLower_eq_iff.mpr ⟨by rw [happ, h1, h2]; rfl, ?_⟩
          simpa using h
        · intro h
          rcases h with h | h
          · obtain ⟨-, hd⟩ := mapLower_eq_iff.mp h
            rw [show (['i', 'n', 'f'] : List Char).length = 3 from rfl] at hd
            rw [hd] at h2
            exact absurd h2 (by simp [ciMatch_nil_nonempty])
          · obtain ⟨-, hd⟩ := mapLower_eq_iff.mp h
            simpa using hd
      | false =>
        simp only [Bool.false_eq_true, if_false, reduceIte, ScanRes.special.injEq, true_and]
        constructor
        · intro h
          left
          exact mapLower_eq_iff.mpr ⟨h1, by simpa using h⟩
        · intro h
          rcases h with h | h
          · simpa using (mapLower_eq_iff.mp h).2
          · obtain ⟨hc, -⟩ := mapLower_eq_iff.mp h
            rw [happ, h1] at hc
            simp only [Bool.true_and] at hc
            rw [hc] at h2
            exact absurd h2 (by simp)
    | false =>
      simp only [Bool.false_eq_true, if_false, reduceIte]
      constructor
      · intro h
        exfalso
        split at h <;> simp at h
      · intro h
        exfalso
        rcases h with h | h
        · have hc := (mapLower_eq_iff.mp h).1
          rw [h1] at hc
          exact absurd hc (by decide)
        · have hc := (mapLower_eq_iff.mp h).1
          rw [happ, h1] at hc
          simp at hc

theorem ciMatch_head {s : List Char} {t : Char} {ts : List Char}
    (h : case_insensitive_match s (t :: ts) = true) :
    ∃ c cs, s = c :: cs ∧ lowerAscii c = t := by
  cases s with
  | nil => simp [case_insensitive_match] at h
  | cons c cs =>
    simp only [case_insensitive_match, Bool.and_eq_true, decide_eq_true_eq] at h
    exact ⟨c, cs, rfl, h.1⟩

theorem scanFloat_special_nan_iff (s : List Char) :
    scanFloat s = ScanRes.special Special.nan [] ↔
      (consume_sign s).map lowerAscii = ['n', 'a', 'n'] := by
  simp only [scanFloat]
  cases hni : startsNI (consume_sign s) with
  | false =>
    simp only [Bool.false_eq_true, if_false, reduceIte]
    constructor
    · intro h
      simp at h
    · intro h
      rw [startsNI_of_mapLower_n h] at hni
      exact absurd hni (by decide)
  | true =>
    simp only [reduceIte]
    cases h1 : case_insensitive_match (consume_sign s) ['i', 'n', 'f'] with
    | true =>
      have hhead : ∀ rest, (consume_sign s).map lowerAscii ≠ 'n' :: rest := by
        intro rest h
        obtain ⟨c, cs, hc, hl⟩ := ciMatch_head h1
        rw [hc] at h
        simp only [List.map_cons, List.cons.injEq] at h
        rw [hl] at h
        exact absurd h.1 (by decide)
      cases h2 : case_insensitive_match ((consume_sign s).drop 3) ['i', 'n', 'i', 't', 'y'] with
      | true =>
        simp only [reduceIte]
        constructor
        · intro h
          exfalso
          simp only [ScanRes.special.injEq] at h
          exact absurd h.1 (by decide)
        · intro h
          exact absurd h (hhead _)
      | false =>
        simp only [Bool.false_eq_true, if_false, reduceIte]
        constructor
        · intro h
          exfalso
          simp only [ScanRes.special.injEq] at h
          exact absurd h.1 (by decide)
        · intro h
          exact absurd h (hhead _)
    | false =>
      simp only [Bool.false_eq_true, if_false, reduceIte]
      cases h3 : case_insensitive_match (consume_sign s) ['n', 'a', 'n'] with
      | true =>
        simp only [reduceIte, ScanRes.special.injEq, true_and]
        constructor
        · intro h
          exact mapLower_eq_iff.mpr ⟨h3, by simpa using h⟩
        · intro h
          simpa using (mapLower_eq_iff.mp h).2
      | false =>
        simp only [Bool.false_eq_true, if_false, reduceIte]
        constructor
        · intro h
          simp at h
        · intro h
          have hc := (mapLower_eq_iff.mp h).1
          rw [h3] at hc
          exact absurd hc (by decide)

/-! ## Helper lemmas: the digit-grammar branch -/

theorem scanDecimal_eq_specDecSplit (r1 : List Char) :
    scanDecimal r1 = (((specDecSplit r1).1).length, (specDecSplit r1).2) := by
  cases r1 with
  | nil => rfl
  | cons c t =>
    simp only [scanDecimal, specDecSplit, is_decimal]
    by_cases hc : c = '.'
    · simp [hc, scanDigits]
    · simp [hc]

theorem takeWhile_cons_inv {p : α → Bool} {l : List α} {c : α} {cs : List α}
    (h : l.takeWhile p = c :: cs) : ∃ t, l = c :: t ∧ p c = true := by
  cases l with
  | nil => simp at h
  | cons a t =>
    cases hp : p a with
    | false => simp [List.takeWhile_cons, hp] at h
    | true =>
      rw [List.takeWhile_cons_of_pos hp] at h
      simp only [List.cons.injEq] at h
      obtain ⟨rfl, -⟩ := h
      exact ⟨t, rfl, hp⟩

theorem startsNI_false_of_mantissa {s1 : List Char}
    (hnd : (s1.takeWhile is_valid_digit).length +
        ((specDecSplit (s1.dropWhile is_valid_digit)).1).length ≠ 0) :
    startsNI s1 = false := by
  cases hd1 : s1.takeWhile is_valid_digit with
  | cons c cs =>
    obtain ⟨t, hs1, hpc⟩ := takeWhile_cons_inv hd1
    rw [hs1]
    obtain ⟨h1, h2⟩ := digit_not_n_or_i hpc
    simp [startsNI, h1, h2]
  | nil =>
    have hr1 : s1.dropWhile is_valid_digit = s1 := takeWhile_nil_dropWhile hd1
    rw [hd1, hr1] at hnd
    simp only [List.length_nil, Nat.zero_add] at hnd
    cases s1 with
    | nil => simp [specDecSplit] at hnd
    | cons c t =>
      by_cases hc : c = '.'
      · subst hc
        simp [startsNI, is_n_or_N, is_i_or_I]
      · exfalso
        apply hnd
        simp [specDecSplit, hc]

theorem scnof_of_specValid {s : List Char} (h : (specScanFloat s).isSome) :
    string_contains_non_overflowing_float s = decide (mantissa_digit_count s < DBL_DIG) := by
  obtain ⟨neg, s1, hss⟩ : ∃ neg s1, signSplit s = (neg, s1) := ⟨_, _, rfl⟩
  have hcs : consume_sign s = s1 := by rw [consume_sign_eq_signSplit, hss]
  obtain ⟨d2, r2, hdr⟩ :
      ∃ d2 r2, specDecSplit (s1.dropWhile is_valid_digit) = (d2, r2) := ⟨_, _, rfl⟩
  have hmc : mantissa_digit_count s =
      (s1.takeWhile is_valid_digit).length + d2.length := by
    simp only [mantissa_digit_count, hss, hdr]
  by_cases hnd : (s1.takeWhile is_valid_digit).length + d2.length = 0
  · simp only [specScanFloat, hss, hdr] at h
    rw [if_pos hnd] at h
    simp at h
  · have hni : startsNI s1 = false := by
      apply startsNI_false_of_mantissa
      rw [hdr]
      exact hnd
    have hscan : scanFloat s = ScanRes.general (generalScan s1) := by
      simp only [scanFloat, hcs, hni, Bool.false_eq_true, if_false]
    have hgen0 : generalScan s1 =
        { valid := (scanExponent
            (decide (0 < (s1.takeWhile is_valid_digit).length + d2.length)) r2).1
          ndigits := (s1.takeWhile is_valid_digit).length + d2.length
          rest := (scanExponent
            (decide (0 < (s1.takeWhile is_valid_digit).length + d2.length)) r2).2 } := by
      simp only [generalScan, scanDigits, scanDecimal_eq_specDecSplit, hdr]
    have hv : decide (0 < (s1.takeWhile is_valid_digit).length + d2.length) = true := by
      simp only [decide_eq_true_eq]
      omega
    cases r2 with
    | nil =>
      have hexp : scanExponent
          (decide (0 < (s1.takeWhile is_valid_digit).length + d2.length)) [] =
          (decide (0 < (s1.takeWhile is_valid_digit).length + d2.length), []) := rfl
      rw [string_contains_non_overflowing_float, hscan, hgen0, hexp, hmc]
      simp only [hv, List.isEmpty_nil, Bool.true_and, Bool.and_true]
    | cons c cs =>
      simp only [specScanFloat, hss, hdr] at h
      rw [if_neg hnd] at h
      cases he : is_e_or_E c with
      | false =>
        rw [he] at h
        simp at h
      | true =>
        rw [he] at h
        simp only [if_true] at h
        obtain ⟨eneg, s2, hes⟩ : ∃ eneg s2, signSplit cs = (eneg, s2) := ⟨_, _, rfl⟩
        simp only [hes] at h
        by_cases hcond : ((s2.takeWhile is_valid_digit).length = 0 ||
            !(s2.dropWhile is_valid_digit).isEmpty) = true
        · rw [if_pos hcond] at h
          simp at h
        · have hcond' : (s2.takeWhile is_valid_digit).length ≠ 0 ∧
              (s2.dropWhile is_valid_digit).isEmpty = true := by
            constructor
            · intro hz
              apply hcond
              simp [hz]
            · cases hr : (s2.dropWhile is_valid_digit).isEmpty with
              | true => rfl
              | false =>
                exfalso
                apply hcond
                simp [hr]
          have hcs2 : consume_sign cs = s2 := by
            rw [consume_sign_eq_signSplit, hes]
          have hexp : scanExponent
              (decide (0 < (s1.takeWhile is_valid_digit).length + d2.length)) (c :: cs) =
              (decide (0 < (s2.takeWhile is_valid_digit).length),
                s2.dropWhile is_valid_digit) := by
            simp only [scanExponent, he, hv, Bool.and_true, Bool.true_and, if_true,
              hcs2, scanDigits]
          have hd3v : decide (0 < (s2.takeWhile is_valid_digit).length) = true := by
            simp only [decide_eq_true_eq]
            omega
          rw [string_contains_non_overflowing_float, hscan, hgen0, hexp, hmc]
          simp only [hd3v, hcond'.2, Bool.true_and, Bool.and_true]

/-! ## Helper lemmas: accepted inputs contain no whitespace -/

theorem mem_takeWhile_pred {p : α → Bool} :
    ∀ {l : List α} {a : α}, a ∈ l.takeWhile p → p a = true := by
  intro l
  induction l with
  | nil => simp
  | cons c t ih =>
    intro a ha
    cases hp : p c with
    | false => rw [List.takeWhile_cons_of_neg (by simp [hp])] at ha; simp at ha
    | true =>
      rw [List.takeWhile_cons_of_pos hp] at ha
      rcases List.mem_cons.mp ha with rfl | ha
      · exact hp
      · exact ih ha

theorem dropWhile_nil_forall {p : α → Bool} {l : List α}
    (h : l.dropWhile p = []) : ∀ a ∈ l, p a = true := by
  intro a ha
  have hs := List.takeWhile_append_dropWhile p l
  rw [h, List.append_nil] at hs
  rw [← hs] at ha
  exact mem_takeWhile_pred ha

theorem scanExponent_rest_nil_no_ws {v : Bool} {r2 : List Char}
    (h : (scanExponent v r2).2 = []) : ∀ c ∈ r2, is_white_space c = false := by
  cases r2 with
  | nil => simp
  | cons c cs =>
    intro x hx
    by_cases hg : (is_e_or_E c && v) = true
    · have h' : (scanDigits (consume_sign cs)).2 = [] := by
        simp only [scanExponent, hg, if_true] at h
        exact h
      simp only [scanDigits] at h'
      rcases List.mem_cons.mp hx with rfl | hx
      · exact e_not_ws (Bool.and_elim_left hg)
      · obtain ⟨pre, hcs, hsig⟩ := consume_sign_decomp cs
        rw [hcs] at hx
        rcases List.mem_append.mp hx with hx | hx
        · exact sign_not_ws (hsig _ hx)
        · exact digit_not_ws (dropWhile_nil_forall h' _ hx)
    · exfalso
      simp only [scanExponent, hg, Bool.false_eq_true, if_false] at h
      exact List.cons_ne_nil _ _ h

theorem generalScan_rest_nil_no_ws {s1 : List Char}
    (hrest : (generalScan s1).rest = []) : ∀ c ∈ s1, is_white_space c = false := by
  obtain ⟨d2, r2, hdr⟩ :
      ∃ d2 r2, specDecSplit (s1.dropWhile is_valid_digit) = (d2, r2) := ⟨_, _, rfl⟩
  have hgen : (generalScan s1).rest = (scanExponent
      (decide (0 < (s1.takeWhile is_valid_digit).length + d2.length)) r2).2 := by
    simp only [generalScan, scanDigits, scanDecimal_eq_specDecSplit, hdr]
  rw [hgen] at hrest
  intro c hc
  have hsplit := List.takeWhile_append_dropWhile is_valid_digit s1
  rw [← hsplit] at hc
  rcases List.mem_append.mp hc with h | h
  · exact digit_not_ws (mem_takeWhile_pred h)
  · cases hr1 : s1.dropWhile is_valid_digit with
    | nil =>
      rw [hr1] at h
      simp at h
    | cons c1 t =>
      rw [hr1] at h hdr
      simp only [specDecSplit] at hdr
      by_cases hc1 : c1 = '.'
      · rw [if_pos hc1] at hdr
        rw [Prod.mk.injEq] at hdr
        obtain ⟨hd2, hr2⟩ := hdr
        rcases List.mem_cons.mp h with rfl | h
        · subst hc1
          exact decimal_not_ws (by simp [is_decimal])
        · have hts := List.takeWhile_append_dropWhile is_valid_digit t
          rw [← hts] at h
          rcases List.mem_append.mp h with h | h
          · exact digit_not_ws (mem_takeWhile_pred h)
          · rw [hr2] at h
            exact scanExponent_rest_nil_no_ws hrest _ h
      · rw [if_neg hc1] at hdr
        rw [Prod.mk.injEq] at hdr
        obtain ⟨hd2, hr2⟩ := hdr
        rw [hr2] at h
        exact scanExponent_rest_nil_no_ws hrest _ h

theorem scanFloat_general_inv {s : List Char} {g : GenScan}
    (h : scanFloat s = ScanRes.general g) : g = generalScan (consume_sign s) := by
  simp only [scanFloat] at h
  split at h
  · split at h
    · split at h
      · simp at h
      · simp at h
    · split at h
      · simp at h
      · simp only [ScanRes.general.injEq] at h
        exact h.symm
  · simp only [ScanRes.general.injEq] at h
    exact h.symm

theorem mapLower_mem_token {s1 : List Char} {token : List Char}
    (hmap : s1.map lowerAscii = token)
    (htok : ∀ x ∈ token, x ∈ (['i', 'n', 'f', 't', 'y', 'a'] : List Char)) :
    ∀ c ∈ s1, is_white_space c = false := by
  intro c hc
  have hm : lowerAscii c ∈ token := by
    rw [← hmap]
    exact List.mem_map_of_mem _ hc
  exact letter_lower_not_ws rfl (htok _ hm)

theorem scnof_accepted_no_ws {s : List Char}
    (hacc : string_contains_non_overflowing_float s = true) :
    ∀ c ∈ s, is_white_space c = false := by
  have hs1 : ∀ x ∈ consume_sign s, is_white_space x = false := by
    cases hres : scanFloat s with
    | general g =>
      rw [string_contains_non_overflowing_float, hres] at hacc
      simp only [Bool.and_eq_true, List.isEmpty_iff] at hacc
      have hg := scanFloat_general_inv hres
      apply generalScan_rest_nil_no_ws
      rw [← hg]
      exact hacc.2
    | special tag rest =>
      rw [string_contains_non_overflowing_float, hres] at hacc
      rw [List.isEmpty_iff] at hacc
      rw [hacc] at hres
      cases tag with
      | inf =>
        rcases (scanFloat_special_inf_iff s).mp hres with h | h
        · exact mapLower_mem_token h (by decide)
        · exact mapLower_mem_token h (by decide)
      | nan =>
        exact mapLower_mem_token ((scanFloat_special_nan_iff s).mp hres) (by decide)
  obtain ⟨pre, hs, hsig⟩ := consume_sign_decomp s
  intro c hc
  rw [hs] at hc
  rcases List.mem_append.mp hc with hc | hc
  · exact sign_not_ws (hsig _ hc)
  · exact hs1 _ hc

/-! ## Fuel-bounded scanner

The C loops are modelled step by step: every loop iteration consumes one unit
of fuel and advances the cursor by exactly one character. Showing that the
fuel-bounded scanner with fuel equal to the input length computes the same
result as the direct embedding proves that every loop of the scanner
terminates after at most input-length many iterations. -/

def scanDigitsFuel : Nat → List Char → Option (Nat × List Char × Nat)
  | fuel, [] => some (0, [], fuel)
  | fuel, c :: cs =>
    if is_valid_digit c then
      match fuel with
      | 0 => none
      | f + 1 =>
        match scanDigitsFuel f cs with
        | some (n, r, fl) => some (n + 1, r, fl)
        | none => none
    else some (0, c :: cs, fuel)

def scanDecimalFuel (fuel : Nat) (s : List Char) : Option (Nat × List Char × Nat) :=
  match s with
  | c :: cs => if is_decimal c then scanDigitsFuel fuel cs else some (0, c :: cs, fuel)
  | [] => some (0, [], fuel)

def scanExponentFuel (fuel : Nat) (valid : Bool) (s : List Char) : Option (Bool × List Char) :=
  match s with
  | c :: cs =>
    if is_e_or_E c && valid then
      match scanDigitsFuel fuel (consume_sign cs) with
      | some (n, r, _) => some (decide (0 < n), r)
      | none => none
    else some (valid, c :: cs)
  | [] => some (valid, [])

def scnofFuelGeneral (fuel : Nat) (s1 : List Char) : Option Bool :=
  match scanDigitsFuel fuel s1 with
  | none => none
  | some (n1, r1, f1) =>
    match scanDecimalFuel f1 r1 with
    | none => none
    | some (n2, r2, f2) =>
      match scanExponentFuel f2 (decide (0 < n1 + n2)) r2 with
      | none => none
      | some (v, r3) => some (v && decide (n1 + n2 < DBL_DIG) && r3.isEmpty)

/-- The fuel-bounded version of `string_contains_non_overflowing_float`:
identical control flow, but each digit-loop iteration costs one unit of fuel
and the scan reports `none` when fuel runs out mid-loop. -/
def scnofFuel (fuel : Nat) (s : List Char) : Option Bool :=
  let s1 := consume_sign s
  if startsNI s1 then
    if case_insensitive_match s1 ['i', 'n', 'f'] then
      if case_insensitive_match (s1.drop 3) ['i', 'n', 'i', 't', 'y'] then
        some (((s1.drop 3).drop 5).isEmpty)
      else some ((s1.drop 3).isEmpty)
    else if case_insensitive_match s1 ['n', 'a', 'n'] then
      some ((s1.drop 3).isEmpty)
    else scnofFuelGeneral fuel s1
  else scnofFuelGeneral fuel s1

theorem scanDigitsFuel_eq :
    ∀ (s : List Char) (fuel : Nat), s.length ≤ fuel →
      scanDigitsFuel fuel s =
        some ((s.takeWhile is_valid_digit).length, s.dropWhile is_valid_digit,
          fuel - (s.takeWhile is_valid_digit).length) := by
  intro s
  induction s with
  | nil =>
    intro fuel hf
    simp [scanDigitsFuel]
  | cons c cs ih =>
    intro fuel hf
    cases hp : is_valid_digit c with
    | false =>
      simp [scanDigitsFuel.eq_def, hp, List.takeWhile_cons, List.dropWhile_cons]
    | true =>
      simp only [List.length_cons] at hf
      cases fuel with
      | zero => omega
      | succ f =>
        have hcs : cs.length ≤ f := by omega
        simp only [scanDigitsFuel, hp, if_true, ih f hcs,
          List.takeWhile_cons_of_pos hp, List.dropWhile_cons_of_pos hp,
          List.length_cons]
        have : f + 1 - ((cs.takeWhile is_valid_digit).length + 1) =
            f - (cs.takeWhile is_valid_digit).length := by omega
        rw [this]

theorem length_split_takeWhile (p : α → Bool) (l : List α) :
    l.length = (l.takeWhile p).length + (l.dropWhile p).length := by
  have h := congrArg List.length (List.takeWhile_append_dropWhile p l)
  rw [List.length_append] at h
  omega

theorem scanDecimalFuel_complete {r1 : List Char} {fuel : Nat} (h : r1.length ≤ fuel) :
    ∃ f2, scanDecimalFuel fuel r1 = some ((scanDecimal r1).1, (scanDecimal r1).2, f2) ∧
      (scanDecimal r1).2.length ≤ f2 := by
  cases r1 with
  | nil => exact ⟨fuel, rfl, by simp [scanDecimal]⟩
  | cons c cs =>
    cases hc : is_decimal c with
    | false =>
      refine ⟨fuel, ?_, ?_⟩
      · simp [scanDecimalFuel, scanDecimal, hc]
      · simp only [scanDecimal, hc, Bool.false_eq_true, if_false]
        simpa using h
    | true =>
      simp only [List.length_cons] at h
      have hcs : cs.length ≤ fuel := by omega
      refine ⟨fuel - (cs.takeWhile is_valid_digit).length, ?_, ?_⟩
      · simp [scanDecimalFuel, scanDecimal, hc, scanDigitsFuel_eq cs fuel hcs, scanDigits]
      · simp only [scanDecimal, hc, if_true, scanDigits]
        have := length_split_takeWhile is_valid_digit cs
        omega

theorem scanExponentFuel_complete {r2 : List Char} {fuel : Nat} {v : Bool}
    (h : r2.length ≤ fuel) :
    scanExponentFuel fuel v r2 = some (scanExponent v r2) := by
  cases r2 with
  | nil => rfl
  | cons c cs =>
    cases hg : (is_e_or_E c && v) with
    | false => simp [scanExponentFuel, scanExponent, hg]
    | true =>
      simp only [List.length_cons] at h
      have hlen : (consume_sign cs).length ≤ fuel :=
        le_trans (consume_sign_length cs) (by omega)
      simp [scanExponentFuel, scanExponent, hg, scanDigitsFuel_eq _ fuel hlen, scanDigits]

theorem scnofFuelGeneral_complete {s1 : List Char} {fuel : Nat} (h : s1.length ≤ fuel) :
    scnofFuelGeneral fuel s1 =
      some ((generalScan s1).valid && decide ((generalScan s1).ndigits < DBL_DIG) &&
        (generalScan s1).rest.isEmpty) := by
  have h1 := scanDigitsFuel_eq s1 fuel h
  have hr1 : (s1.dropWhile is_valid_digit).length ≤
      fuel - (s1.takeWhile is_valid_digit).length := by
    have := length_split_takeWhile is_valid_digit s1
    omega
  obtain ⟨f2, h2, hf2⟩ := scanDecimalFuel_complete hr1
  have h3 := scanExponentFuel_complete (v := decide (0 <
      (s1.takeWhile is_valid_digit).length + (scanDecimal (s1.dropWhile is_valid_digit)).1))
    hf2
  simp only [scnofFuelGeneral, h1, h2, h3, generalScan, scanDigits]

theorem scnofFuel_eq_scnof (s : List Char) :
    scnofFuel s.length s = some (string_contains_non_overflowing_float s) := by
  have hlen : (consume_sign s).length ≤ s.length := consume_sign_length s
  simp only [scnofFuel, string_contains_non_overflowing_float, scanFloat]
  cases hni : startsNI (consume_sign s) with
  | false =>
    simp only [Bool.false_eq_true, if_false]
    exact scnofFuelGeneral_complete hlen
  | true =>
    simp only [if_true]
    cases h1 : case_insensitive_match (consume_sign s) ['i', 'n', 'f'] with
    | true =>
      cases h2 : case_insensitive_match ((consume_sign s).drop 3)
          ['i', 'n', 'i', 't', 'y'] with
      | true => simp
      | false => simp
    | false =>
      cases h3 : case_insensitive_match (consume_sign s) ['n', 'a', 'n'] with
      | true => simp
      | false =>
        simp only [Bool.false_eq_true, if_false]
        exact scnofFuelGeneral_complete hlen

/-! ## Helper lemmas: whitespace trimming -/

theorem all_sat_takeWhile {p : α → Bool} {l : List α} (h : ∀ c ∈ l, p c = true) :
    l.takeWhile p = l ∧ l.dropWhile p = [] := by
  have := @takeWhile_middle α p l [] h (by simp)
  simpa using this

theorem strip_whitespace_invariant {ws1 s ws2 : List Char}
    (h1 : ∀ c ∈ ws1, is_white_space c = true)
    (h2 : ∀ c ∈ ws2, is_white_space c = true) :
    strip_whitespace (ws1 ++ s ++ ws2) = strip_whitespace s := by
  unfold strip_whitespace
  rw [List.append_assoc, List.dropWhile_append_of_pos h1]
  rw [List.dropWhile_append]
  split
  next he =>
    rw [(all_sat_takeWhile h2).2]
    rw [List.isEmpty_iff] at he
    rw [he]
  next =>
    rw [List.reverse_append, List.dropWhile_append_of_pos ?wsr]
    case wsr =>
      intro c hc
      rw [List.mem_reverse] at hc
      exact h2 c hc

/-! ## Claim theorems -/

/-- C1: for every input string the scanner accepts only if the match consumed
the entire trimmed range — it accepts only with an empty unconsumed
remainder, so trailing non-numeric characters force rejection — and every
accepted input is free of whitespace, so embedded whitespace (whitespace
inside the trimmed range) always causes failure. -/
theorem claim_C1_whole_range_and_embedded_ws :
    ∀ s : List Char,
      (string_contains_non_overflowing_float s = true → scanRest s = []) ∧
      (string_contains_non_overflowing_float s = true →
        ∀ c ∈ s, is_white_space c = false) ∧
      ((∃ c ∈ s, is_white_space c = true) →
        string_contains_non_overflowing_float s = false) := by
  intro s
  refine ⟨?_, fun h => scnof_accepted_no_ws h, ?_⟩
  · intro h
    rw [string_contains_non_overflowing_float] at h
    rw [scanRest]
    cases hres : scanFloat s with
    | special tag rest =>
      rw [hres] at h
      exact List.isEmpty_iff.mp h
    | general g =>
      rw [hres] at h
      simp only [Bool.and_eq_true, List.isEmpty_iff] at h
      exact h.2
  · rintro ⟨c, hc, hw⟩
    cases hacc : string_contains_non_overflowing_float s with
    | false => rfl
    | true =>
      exfalso
      have hnw := scnof_accepted_no_ws hacc c hc
      rw [hw] at hnw
      exact absurd hnw (by decide)

/-- Witness for C1 at concrete inputs: "1" is accepted with nothing left
over and contains no whitespace, and "1 2" (embedded space) is rejected. -/
theorem claim_C1_witness :
    scanRest ['1'] = [] ∧ (∀ c ∈ (['1'] : List Char), is_white_space c = false) ∧
      string_contains_non_overflowing_float ['1', ' ', '2'] = false :=
  ⟨(claim_C1_whole_range_and_embedded_ws ['1']).1 (by decide),
    (claim_C1_whole_range_and_embedded_ws ['1']).2.1 (by decide),
    (claim_C1_whole_range_and_embedded_ws ['1', ' ', '2']).2.2 ⟨' ', by decide, by decide⟩⟩

/-- C4: after an optional single leading sign, the scanner recognizes the
Infinity special token exactly when the remainder case-insensitively equals
"inf" or "infinity", and the NaN token exactly when it equals "nan", in both
cases consuming the whole trimmed range; any special-token match that leaves
characters unconsumed is rejected, so no truncation or extension of these
tokens is accepted. -/
theorem claim_C4_special_tokens :
    ∀ s : List Char,
      (scanFloat s = ScanRes.special Special.inf [] ↔
        ((signSplit s).2.map lowerAscii = ['i', 'n', 'f'] ∨
          (signSplit s).2.map lowerAscii = ['i', 'n', 'f', 'i', 'n', 'i', 't', 'y'])) ∧
      (scanFloat s = ScanRes.special Special.nan [] ↔
        (signSplit s).2.map lowerAscii = ['n', 'a', 'n']) ∧
      (∀ tag rest, scanFloat s = ScanRes.special tag rest →
        string_contains_non_overflowing_float s = rest.isEmpty) := by
  intro s
  have hcs := consume_sign_eq_signSplit s
  refine ⟨?_, ?_, ?_⟩
  · rw [← hcs]
    exact scanFloat_special_inf_iff s
  · rw [← hcs]
    exact scanFloat_special_nan_iff s
  · intro tag rest h
    rw [string_contains_non_overflowing_float, h]

/-- Witness for C4 at concrete inputs: "iNf" is the Infinity token, and the
extension "nanx" leaves a character unconsumed and is rejected. -/
theorem claim_C4_witness :
    scanFloat ['i', 'N', 'f'] = ScanRes.special Special.inf [] ∧
      string_contains_non_overflowing_float ['n', 'a', 'n', 'x'] =
        (['x'] : List Char).isEmpty :=
  ⟨(claim_C4_special_tokens ['i', 'N', 'f']).1.mpr (Or.inl (by decide)),
    (claim_C4_special_tokens ['n', 'a', 'n', 'x']).2.2 Special.nan ['x'] (by decide)⟩

/-- C6: surrounding an input with leading and trailing whitespace — the space
character or the ASCII control range tab through carriage-return, as
`is_white_space` defines — never changes the classification result. -/
theorem claim_C6_whitespace_invariant :
    ∀ (ws1 s ws2 : List Char),
      (∀ c ∈ ws1, is_white_space c = true) →
      (∀ c ∈ ws2, is_white_space c = true) →
      classifyFloatString (ws1 ++ s ++ ws2) = classifyFloatString s := by
  intro ws1 s ws2 h1 h2
  unfold classifyFloatString
  rw [strip_whitespace_invariant h1 h2]

/-- Witness for C6 at a concrete input: " 1⟨tab⟩" classifies like "1". -/
theorem claim_C6_witness :
    classifyFloatString ([' '] ++ ['1'] ++ ['\t']) = classifyFloatString ['1'] :=
  claim_C6_whitespace_invariant [' '] ['1'] ['\t'] (by decide) (by decide)

/-- C8: every digit loop of the scanner advances the cursor by one character
per iteration, so running the scanner with a fuel budget equal to the input
length never exhausts the fuel and computes the unbounded scan's result:
the scan terminates within input-length many loop iterations. -/
theorem claim_C8_scan_terminates (s : List Char) :
    scnofFuel s.length s = some (string_contains_non_overflowing_float s) :=
  scnofFuel_eq_scnof s

/-- C3: for every classification descriptor, however the flags were set, the
resolver rejects the float verdict exactly when the Infinity (respectively
NaN) flag is set and the configuration disallows infinity (respectively NaN)
for the input's origin, with the string-origin (`FromStr`/`FromUni`) and
numeric-origin allowances consulted independently; the flags themselves are
inputs the resolver never alters. -/
theorem claim_C3_infnan_policy :
    ∀ (flags : NumberFlags) (options : UserOptions),
      (resolve_types flags options).ok_float =
        (flags.float && !((flags.infinity &&
            (((flags.fromStr || flags.fromUni) && !options.allow_inf_str) ||
              (flags.fromNum && !options.allow_inf_num))) ||
          (flags.nan &&
            (((flags.fromStr || flags.fromUni) && !options.allow_nan_str) ||
              (flags.fromNum && !options.allow_nan_num))))) := by
  intro flags options
  rcases flags with ⟨i, f, il, hin, hna, fs, fu, fn, hv⟩
  rcases options with ⟨a1, a2, a3, a4, a5⟩
  revert i f il hin hna fs fu fn hv a1 a2 a3 a4 a5
  decide

/-- C7: when the caller restricts consideration to numeric inputs, every
textual input (character string or single unicode character) yields the
INVALID descriptor before the evaluator runs — for every possible evaluator
outcome; symmetrically for the string-only restriction and non-text inputs. -/
theorem claim_C7_type_mismatch_precedence :
    (∀ (ev : InputKind → NumberFlags) (kind : InputKind),
      (kind.is_text || kind.is_unicode_character) = true →
      collect_type kind Consider.numberOnly ev = NumberFlags.INVALID) ∧
    (∀ (ev : InputKind → NumberFlags) (kind : InputKind),
      kind.is_non_text = true →
      collect_type kind Consider.stringOnly ev = NumberFlags.INVALID) := by
  constructor
  · intro ev kind h
    simp [collect_type, h]
  · intro ev kind h
    have ht : kind.is_text = false ∧ kind.is_unicode_character = false := by
      rcases kind with _ | _ | _
      · exact absurd h (by decide)
      · exact absurd h (by decide)
      · exact ⟨rfl, rfl⟩
    simp [collect_type, h, ht.1, ht.2]

/-- Witness for C7 at concrete inputs: a text input under number-only mode
and a numeric input under string-only mode both yield INVALID, for an
evaluator that would otherwise report an integer. -/
theorem claim_C7_witness :
    collect_type InputKind.text Consider.numberOnly
        (fun _ => { integer := true, fromStr := true }) = NumberFlags.INVALID ∧
      collect_type InputKind.numeric Consider.stringOnly
        (fun _ => { integer := true, fromNum := true }) = NumberFlags.INVALID :=
  ⟨claim_C7_type_mismatch_precedence.1 _ InputKind.text (by decide),
    claim_C7_type_mismatch_precedence.2 _ InputKind.numeric (by decide)⟩

/-- Modelled from the spec (§4.2): the Classifier reports a native integer
input as Integer with numeric origin. -/
def intNumericFlags : NumberFlags :=
  { integer := true, fromNum := true }

/-- Modelled from the spec (§4.2): the Classifier reports a textual integer
literal as Integer with string origin. -/
def intTextFlags : NumberFlags :=
  { integer := true, fromStr := true }

/-- Modelled from the spec (§4.2/§4.1): the Classifier reports a single
unicode numeral character as Integer with unicode-string origin. -/
def intUnicodeFlags : NumberFlags :=
  { integer := true, fromUni := true }

/-- C9: under target FLOAT the integer verdict survives only for
string-origin input with strict mode off — a numeric-origin integer fails
the FLOAT check whatever the strict flag, while a text- or unicode-origin
integer passes it exactly when strict mode is off — and under target REAL
the integer verdict is accepted from every origin: numeric, text, and
unicode alike. -/
theorem claim_C9_float_check_origin :
    ∀ (options : UserOptions) (strict : Bool),
      float_check_impl InputKind.numeric (fun _ => intNumericFlags) Consider.both
          options UserType.FLOAT strict = false ∧
        float_check_impl InputKind.numeric (fun _ => intNumericFlags) Consider.both
          options UserType.REAL strict = true ∧
        float_check_impl InputKind.text (fun _ => intTextFlags) Consider.both
          options UserType.FLOAT strict = !strict ∧
        float_check_impl InputKind.text (fun _ => intTextFlags) Consider.both
          options UserType.REAL strict = true ∧
        float_check_impl InputKind.unicodeCharacter (fun _ => intUnicodeFlags) Consider.both
          options UserType.FLOAT strict = !strict ∧
        float_check_impl InputKind.unicodeCharacter (fun _ => intUnicodeFlags) Consider.both
          options UserType.REAL strict = true := by
  intro options strict
  rcases options with ⟨a1, a2, a3, a4, a5⟩
  revert a1 a2 a3 a4 a5 strict
  decide

/-- C10: the type query reports the integer type whenever the integer or
coerced int-like verdict holds (taking precedence over the float verdict),
the float type when only the float verdict holds, the input's own type when
neither holds, and `none` exactly when an allowed-types collection is given
that does not contain the found type. -/
theorem claim_C10_type_query :
    ∀ (kind : InputKind) (ev : InputKind → NumberFlags) (options : UserOptions)
      (member : FoundType → Bool),
      ((resolve_types (collect_type kind Consider.both ev) options).ok_int = true ∨
          (resolve_types (collect_type kind Consider.both ev) options).ok_intlike = true →
        type_query_impl kind ev options none = some FoundType.pyLong) ∧
      ((resolve_types (collect_type kind Consider.both ev) options).ok_int = false →
        (resolve_types (collect_type kind Consider.both ev) options).ok_intlike = false →
        (resolve_types (collect_type kind Consider.both ev) options).ok_float = true →
        type_query_impl kind ev options none = some FoundType.pyFloat) ∧
      ((resolve_types (collect_type kind Consider.both ev) options).ok_int = false →
        (resolve_types (collect_type kind Consider.both ev) options).ok_intlike = false →
        (resolve_types (collect_type kind Consider.both ev) options).ok_float = false →
        type_query_impl kind ev options none = some FoundType.inputOwn) ∧
      (member (found_type (resolve_types (collect_type kind Consider.both ev) options)) =
          false →
        type_query_impl kind ev options (some member) = none) ∧
      (member (found_type (resolve_types (collect_type kind Consider.both ev) options)) =
          true →
        type_query_impl kind ev options (some member) =
          some (found_type (resolve_types (collect_type kind Consider.both ev) options))) := by
  intro kind ev options member
  refine ⟨?_, ?_, ?_, ?_, ?_⟩
  · intro h
    rcases h with h | h <;>
      simp [type_query_impl, found_type, h]
  · intro h1 h2 h3
    simp [type_query_impl, found_type, h1, h2, h3]
  · intro h1 h2 h3
    simp [type_query_impl, found_type, h1, h2, h3]
  · intro h
    simp [type_query_impl, h]
  · intro h
    simp [type_query_impl, h]

/-- Witness for C10 at concrete inputs: an integer-and-float descriptor
reports the integer type; with an allowed-types test refusing it the query
returns `none`, and with one accepting it the query returns the type. -/
theorem claim_C10_witness :
    type_query_impl InputKind.text
        (fun _ => { integer := true, float := true, fromStr := true })
        { } none = some FoundType.pyLong ∧
      type_query_impl InputKind.text
        (fun _ => { integer := true, float := true, fromStr := true })
        { } (some fun _ => false) = none ∧
      type_query_impl InputKind.text
        (fun _ => { integer := true, float := true, fromStr := true })
        { } (some fun _ => true) = some FoundType.pyLong := by
  refine ⟨?_, ?_, ?_⟩
  · exact (claim_C10_type_query InputKind.text _ { } (fun _ => false)).1 (Or.inl (by decide))
  · exact (claim_C10_type_query InputKind.text _ { } (fun _ => false)).2.2.2.1 (by decide)
  · exact (claim_C10_type_query InputKind.text _ { } (fun _ => true)).2.2.2.2 (by decide)

/-- C2, counterexample: the claim "accepted iff the value fits the double
range" fails in both directions at concrete inputs. The literal "1e999" is
syntactically valid and its value 10^999 exceeds the largest finite double,
yet the scanner accepts it; the literal "123456789012345" is syntactically
valid and its value fits a double exactly, yet the scanner rejects it
(15 mantissa digits is not below DBL_DIG = 15). -/
theorem claim_C2_counterexample :
    specScanFloat ['1', 'e', '9', '9', '9'] = some ⟨false, 1, 999⟩ ∧
      ¬ fitsDouble ⟨false, 1, 999⟩ ∧
      string_contains_non_overflowing_float ['1', 'e', '9', '9', '9'] = true ∧
      specScanFloat ['1', '2', '3', '4', '5', '6', '7', '8', '9', '0', '1', '2', '3', '4', '5'] =
        some ⟨false, 123456789012345, 0⟩ ∧
      fitsDouble ⟨false, 123456789012345, 0⟩ ∧
      string_contains_non_overflowing_float
        ['1', '2', '3', '4', '5', '6', '7', '8', '9', '0', '1', '2', '3', '4', '5'] = false := by
  refine ⟨by decide, ?_, by decide, by decide, ?_, by decide⟩
  · intro hle
    unfold fitsDouble maxDouble SpecFloatVal.toRat at hle
    simp only [Bool.false_eq_true, if_false, one_mul, Nat.cast_one] at hle
    rw [abs_of_pos (by positivity)] at hle
    rw [show ((999 : Int) = ((999 : Nat) : Int)) from rfl, zpow_natCast] at hle
    norm_num at hle
  · unfold fitsDouble maxDouble SpecFloatVal.toRat
    simp only [Bool.false_eq_true, if_false, one_mul, zpow_zero, mul_one]
    rw [abs_of_pos (by positivity)]
    norm_num

/-- C2, amended: a syntactically valid (non-special) float literal is
accepted exactly when its mantissa digit count — digits before and after the
decimal point — is strictly below DBL_DIG = 15; the digit-count guard is a
precision proxy, not a range check on the value. -/
theorem claim_C2_amended (s : List Char) (h : (specScanFloat s).isSome) :
    string_contains_non_overflowing_float s = true ↔
      mantissa_digit_count s < DBL_DIG := by
  rw [scnof_of_specValid h, decide_eq_true_iff]

/-- Witness for the amended C2 at "3.5": syntactically valid, two mantissa
digits, accepted. -/
theorem claim_C2_amended_witness :
    (specScanFloat ['3', '.', '5']).isSome = true ∧
      string_contains_non_overflowing_float ['3', '.', '5'] = true :=
  ⟨by decide, (claim_C2_amended ['3', '.', '5'] (by decide)).mpr (by decide)⟩

/-! ## Helper lemmas for the exponent and decimal-point rules -/

theorem e_char_facts {e : Char} (he : is_e_or_E e = true) :
    is_valid_digit e = false ∧ is_decimal e = false ∧ is_sign e = false ∧
      is_n_or_N e = false ∧ is_i_or_I e = false := by
  simp only [is_e_or_E, Bool.or_eq_true, decide_eq_true_eq] at he
  rcases he with rfl | rfl <;> exact ⟨by decide, by decide, by decide, by decide, by decide⟩

theorem digit_not_sign {c : Char} (h : is_valid_digit c = true) : is_sign c = false := by
  cases hs : is_sign c with
  | false => rfl
  | true =>
    exfalso
    simp only [is_sign, Bool.or_eq_true, decide_eq_true_eq] at hs
    rcases hs with rfl | rfl <;> exact absurd h (by decide)

theorem consume_sign_opt {sg x : List Char}
    (hsg : sg = [] ∨ sg = ['+'] ∨ sg = ['-'])
    (hx : ∀ c, x.head? = some c → is_sign c = false) :
    consume_sign (sg ++ x) = x := by
  rcases hsg with rfl | rfl | rfl
  · cases x with
    | nil => rfl
    | cons c t =>
      simp only [List.nil_append, consume_sign, hx c rfl, Bool.false_eq_true, if_false]
  · simp [consume_sign, is_sign]
  · simp [consume_sign, is_sign]

theorem consume_sign_opt_nil {sg : List Char}
    (hsg : sg = [] ∨ sg = ['+'] ∨ sg = ['-']) : consume_sign sg = [] := by
  rcases hsg with rfl | rfl | rfl <;> simp [consume_sign, is_sign]

theorem scnof_general_eval {s s1 : List Char}
    (hcs : consume_sign s = s1) (hni : startsNI s1 = false) :
    string_contains_non_overflowing_float s =
      ((generalScan s1).valid && decide ((generalScan s1).ndigits < DBL_DIG) &&
        (generalScan s1).rest.isEmpty) := by
  rw [string_contains_non_overflowing_float]
  simp only [scanFloat, hcs, hni, Bool.false_eq_true, if_false]

theorem scanDigits_split {d1 rest : List Char}
    (hd : ∀ c ∈ d1, is_valid_digit c = true)
    (hr : ∀ c, rest.head? = some c → is_valid_digit c = false) :
    scanDigits (d1 ++ rest) = (d1.length, rest) := by
  obtain ⟨ht, hdrop⟩ := takeWhile_middle hd hr
  simp [scanDigits, ht, hdrop]

theorem startsNI_false_of_head_digit {ds rest : List Char} (hne : ds ≠ [])
    (hd : ∀ c ∈ ds, is_valid_digit c = true) : startsNI (ds ++ rest) = false := by
  cases ds with
  | nil => exact absurd rfl hne
  | cons d dt =>
    obtain ⟨h1, h2⟩ := digit_not_n_or_i (hd d (List.mem_cons_self ..))
    simp [startsNI, h1, h2]

theorem head_not_sign_of_digits {ds rest : List Char} (hne : ds ≠ [])
    (hd : ∀ c ∈ ds, is_valid_digit c = true) :
    ∀ c, (ds ++ rest).head? = some c → is_sign c = false := by
  cases ds with
  | nil => exact absurd rfl hne
  | cons d dt =>
    intro c hc
    simp only [List.cons_append, List.head?_cons, Option.some.injEq] at hc
    subst hc
    exact digit_not_sign (hd d (List.mem_cons_self ..))

/-- C5: an exponent marker `e`/`E` is valid only when at least one mantissa
digit appeared before it — a marker right after the sign, or after a bare
decimal point, is rejected; the marker must be followed by an optional sign
and one or more digits, so a marker with nothing (or only a sign) after it
is rejected; a bare decimal point with no digits on either side is invalid;
and a literal digits-marker-sign-digits is accepted (within the DBL_DIG
mantissa limit). -/
theorem claim_C5_exponent_and_decimal_rules :
    (∀ (sg tail : List Char) (e : Char),
        (sg = [] ∨ sg = ['+'] ∨ sg = ['-']) → is_e_or_E e = true →
        string_contains_non_overflowing_float (sg ++ e :: tail) = false ∧
          string_contains_non_overflowing_float (sg ++ '.' :: e :: tail) = false) ∧
    (∀ sg : List Char, (sg = [] ∨ sg = ['+'] ∨ sg = ['-']) →
        string_contains_non_overflowing_float (sg ++ ['.']) = false) ∧
    (∀ (sg ds sgn : List Char) (e : Char),
        (sg = [] ∨ sg = ['+'] ∨ sg = ['-']) → is_e_or_E e = true →
        ds ≠ [] → (∀ c ∈ ds, is_valid_digit c = true) →
        (sgn = [] ∨ sgn = ['+'] ∨ sgn = ['-']) →
        string_contains_non_overflowing_float (sg ++ ds ++ e :: sgn) = false) ∧
    (∀ (sg ds sgn es : List Char) (e : Char),
        (sg = [] ∨ sg = ['+'] ∨ sg = ['-']) → is_e_or_E e = true →
        ds ≠ [] → (∀ c ∈ ds, is_valid_digit c = true) → ds.length < DBL_DIG →
        (sgn = [] ∨ sgn = ['+'] ∨ sgn = ['-']) →
        es ≠ [] → (∀ c ∈ es, is_valid_digit c = true) →
        string_contains_non_overflowing_float (sg ++ ds ++ e :: (sgn ++ es)) = true) := by
  have hdec0 : decide (0 < 0) = false := by decide
  refine ⟨?_, ?_, ?_, ?_⟩
  · intro sg tail e hsg he
    obtain ⟨he1, he2, he3, he4, he5⟩ := e_char_facts he
    constructor
    · have hcs : consume_sign (sg ++ e :: tail) = e :: tail := by
        apply consume_sign_opt hsg
        intro c hc
        simp only [List.head?_cons, Option.some.injEq] at hc
        subst hc
        exact he3
      have hni : startsNI (e :: tail) = false := by
        simp [startsNI, he4, he5]
      have hsd : scanDigits (e :: tail) = (0, e :: tail) := by
        have h0 := @scanDigits_split [] (e :: tail) (by simp)
          (by
            intro c hc
            simp only [List.head?_cons, Option.some.injEq] at hc
            subst hc
            exact he1)
        simpa using h0
      rw [scnof_general_eval hcs hni]
      have hg : generalScan (e :: tail) = ⟨false, 0, e :: tail⟩ := by
        simp only [generalScan, hsd, scanDecimal, he2, Bool.false_eq_true, if_false,
          Nat.add_zero, scanExponent, hdec0, Bool.and_false]
      rw [hg]
      simp
    · have hcs : consume_sign (sg ++ '.' :: e :: tail) = '.' :: e :: tail := by
        apply consume_sign_opt hsg
        intro c hc
        simp only [List.head?_cons, Option.some.injEq] at hc
        subst hc
        decide
      have hni : startsNI ('.' :: e :: tail) = false := by
        simp only [startsNI]
        decide
      have hsd : scanDigits ('.' :: e :: tail) = (0, '.' :: e :: tail) := by
        have h0 := @scanDigits_split [] ('.' :: e :: tail) (by simp)
          (by
            intro c hc
            simp only [List.head?_cons, Option.some.injEq] at hc
            subst hc
            decide)
        simpa using h0
      have hsd2 : scanDigits (e :: tail) = (0, e :: tail) := by
        have h0 := @scanDigits_split [] (e :: tail) (by simp)
          (by
            intro c hc
            simp only [List.head?_cons, Option.some.injEq] at hc
            subst hc
            exact he1)
        simpa using h0
      rw [scnof_general_eval hcs hni]
      have hg : generalScan ('.' :: e :: tail) = ⟨false, 0, e :: tail⟩ := by
        simp only [generalScan, hsd, scanDecimal, hsd2, Nat.add_zero, Nat.zero_add,
          scanExponent, hdec0, Bool.and_false, if_true, is_decimal, decide_eq_true_eq,
          if_pos rfl, Bool.false_eq_true, if_false]
      rw [hg]
      simp
  · intro sg hsg
    have hcs : consume_sign (sg ++ ['.']) = ['.'] := by
      apply consume_sign_opt hsg
      intro c hc
      simp only [List.head?_cons, Option.some.injEq] at hc
      subst hc
      decide
    have hni : startsNI ['.'] = false := by decide
    rw [scnof_general_eval hcs hni]
    have hg : generalScan ['.'] = ⟨false, 0, []⟩ := by decide
    rw [hg]
    simp
  · intro sg ds sgn e hsg he hne hd hsgn
    obtain ⟨he1, he2, he3, he4, he5⟩ := e_char_facts he
    have hcs : consume_sign (sg ++ ds ++ e :: sgn) = ds ++ e :: sgn := by
      rw [List.append_assoc]
      exact consume_sign_opt hsg (head_not_sign_of_digits hne hd)
    have hni : startsNI (ds ++ e :: sgn) = false :=
      startsNI_false_of_head_digit hne hd
    have hsd : scanDigits (ds ++ e :: sgn) = (ds.length, e :: sgn) := by
      apply scanDigits_split hd
      intro c hc
      simp only [List.head?_cons, Option.some.injEq] at hc
      subst hc
      exact he1
    have hpos : decide (0 < ds.length) = true := by
      simp only [decide_eq_true_eq]
      exact List.length_pos.mpr hne
    have hsdnil : scanDigits ([] : List Char) = (0, []) := rfl
    rw [scnof_general_eval hcs hni]
    have hg : generalScan (ds ++ e :: sgn) = ⟨false, ds.length, []⟩ := by
      simp only [generalScan, hsd, scanDecimal, he2, Bool.false_eq_true, if_false,
        Nat.add_zero, scanExponent, hpos, he, Bool.true_and, Bool.and_true, if_true,
        consume_sign_opt_nil hsgn, hsdnil, hdec0]
    rw [hg]
    simp
  · intro sg ds sgn es e hsg he hne hd hlen hsgn hesne hes
    obtain ⟨he1, he2, he3, he4, he5⟩ := e_char_facts he
    have hcs : consume_sign (sg ++ ds ++ e :: (sgn ++ es)) = ds ++ e :: (sgn ++ es) := by
      rw [List.append_assoc]
      exact consume_sign_opt hsg (head_not_sign_of_digits hne hd)
    have hni : startsNI (ds ++ e :: (sgn ++ es)) = false :=
      startsNI_false_of_head_digit hne hd
    have hsd : scanDigits (ds ++ e :: (sgn ++ es)) = (ds.length, e :: (sgn ++ es)) := by
      apply scanDigits_split hd
      intro c hc
      simp only [List.head?_cons, Option.some.injEq] at hc
      subst hc
      exact he1
    have hpos : decide (0 < ds.length) = true := by
      simp only [decide_eq_true_eq]
      exact List.length_pos.mpr hne
    have hcse : consume_sign (sgn ++ es) = es := by
      apply consume_sign_opt hsgn
      cases es with
      | nil => exact absurd rfl hesne
      | cons d dt =>
        intro c hc
        simp only [List.head?_cons, Option.some.injEq] at hc
        subst hc
        exact digit_not_sign (hes d (List.mem_cons_self ..))
    have hsde : scanDigits es = (es.length, []) := by
      obtain ⟨ht, hdrop⟩ := all_sat_takeWhile hes
      simp [scanDigits, ht, hdrop]
    have hpose : decide (0 < es.length) = true := by
      simp only [decide_eq_true_eq]
      exact List.length_pos.mpr hesne
    rw [scnof_general_eval hcs hni]
    have hg : generalScan (ds ++ e :: (sgn ++ es)) = ⟨true, ds.length, []⟩ := by
      simp only [generalScan, hsd, scanDecimal, he2, Bool.false_eq_true, if_false,
        scanExponent, hpos, he, Bool.true_and, Bool.and_true, if_true, hcse, hsde,
        hpose, Nat.add_zero]
    rw [hg]
    simp only [Bool.true_and, Bool.and_true, List.isEmpty_nil]
    simpa using hlen

/-- Witness for C5 at concrete inputs: "e5", ".e5", "+.", "1e+" are rejected
and "1e+5" is accepted. -/
theorem claim_C5_witness :
    string_contains_non_overflowing_float ['e', '5'] = false ∧
      string_contains_non_overflowing_float ['.', 'e', '5'] = false ∧
      string_contains_non_overflowing_float ['+', '.'] = false ∧
      string_contains_non_overflowing_float ['1', 'e', '+'] = false ∧
      string_contains_non_overflowing_float ['1', 'e', '+', '5'] = true := by
  refine ⟨?_, ?_, ?_, ?_, ?_⟩
  · exact (claim_C5_exponent_and_decimal_rules.1 [] ['5'] 'e' (Or.inl rfl) (by decide)).1
  · exact (claim_C5_exponent_and_decimal_rules.1 [] ['5'] 'e' (Or.inl rfl) (by decide)).2
  · exact claim_C5_exponent_and_decimal_rules.2.1 ['+'] (Or.inr (Or.inl rfl))
  · exact claim_C5_exponent_and_decimal_rules.2.2.1 [] ['1'] ['+'] 'e' (Or.inl rfl)
      (by decide) (by simp) (by decide) (Or.inr (Or.inl rfl))
  · exact claim_C5_exponent_and_decimal_rules.2.2.2 [] ['1'] ['+'] ['5'] 'e' (Or.inl rfl)
      (by decide) (by simp) (by decide) (by decide) (Or.inr (Or.inl rfl))
      (by simp) (by decide)

end Fastnumbers
